import Mathlib

/-!
Verification of the debounced search controller in `src/App.tsx`
(extended variant, lines 21–109) of the `search-demo` repository.

The development shallowly embeds the JavaScript values and the controller
logic: JSON values become the inductive `JsValue` (JS numbers are modelled
as exact rationals), `JSON.parse` becomes the executable `jsonParse`,
property access (which throws on `null`) becomes `getPropE` in the
`Except` monad, and the debounced async callback becomes the pure state
transformer `runCallback`.  The lodash `_.debounce(f, 500)` wrapper is
modelled by `debounceFires`, which maps a timestamped edit trace to the
trailing-edge invocations of the callback.
-/

namespace SearchDemo

/-- A JavaScript/JSON value.  JS numbers are modelled as exact rationals;
`undefined` is not a `JsValue` but is represented by `Option.none` where a
value can be absent. -/
inductive JsValue : Type where
  | null : JsValue
  | bool : Bool → JsValue
  | num : ℚ → JsValue
  | str : String → JsValue
  | arr : List JsValue → JsValue
  | obj : List (String × JsValue) → JsValue

/-- A JS object literal as produced by the normalization code: an ordered
list of keys, each bound to a value or to `undefined` (`none`). -/
abbrev JsRecord := List (String × Option JsValue)

/-- Own-property lookup on a JS object field list.  `JSON.parse` keeps the
last of several bindings of the same key, which the fold reproduces. -/
def lookupField (fields : List (String × JsValue)) (k : String) : Option JsValue :=
  fields.foldl (fun acc p => if p.1 = k then some p.2 else acc) none

/-- JS property read `v[k]`: throws a `TypeError` on `null` (modeled by
`Except.error`), looks up own properties on objects, and yields
`undefined` on the remaining primitives and on arrays (none of the keys
used by the controller is an array index or an inherited property). -/
def getPropE : JsValue → String → Except Unit (Option JsValue)
  | .null, _ => .error ()
  | .obj fs, k => .ok (lookupField fs k)
  | _, _ => .ok none

/-- Total variant of property read used to state theorems about the
non-`null` case; agrees with `getPropE` whenever the value is not `null`. -/
def jsProp (v : JsValue) (k : String) : Option JsValue :=
  match v with
  | .obj fs => lookupField fs k
  | _ => none

/-! ### Decimal rendering of JS numbers

`ratToChars` renders a rational exactly the way JavaScript renders the
corresponding double for the decimal values this app manipulates
(integers print with no point, `0.5` prints as `0.5`).  It works on
`q.num`/`q.den` by integer long division so that it evaluates inside the
kernel; the fractional fuel of 40 digits exceeds anything a double
renders. -/

/-- The sixteen hexadecimal digit characters (uppercase, as produced by
`encodeURIComponent`); inputs of sixteen and above do not occur. -/
def hexDigitChar : Nat → Char
  | 0 => '0' | 1 => '1' | 2 => '2' | 3 => '3'
  | 4 => '4' | 5 => '5' | 6 => '6' | 7 => '7'
  | 8 => '8' | 9 => '9' | 10 => 'A' | 11 => 'B'
  | 12 => 'C' | 13 => 'D' | 14 => 'E' | 15 => 'F'
  | _+16 => '0'

/-- Decimal digit character (only ever applied to numbers below ten). -/
def digitChar (n : Nat) : Char :=
  hexDigitChar (n % 16)

/-- Decimal digits of a natural number, most significant first; the fuel
is structural so that the kernel can evaluate it. -/
def natToCharsAux : Nat → Nat → List Char
  | 0, _ => []
  | fuel+1, n => if n < 10 then [digitChar n] else natToCharsAux fuel (n / 10) ++ [digitChar (n % 10)]

/-- Decimal rendering of a natural number. -/
def natToChars (n : Nat) : List Char := natToCharsAux (n + 1) n

/-- Digits after the decimal point of `r / d` (`0 < r < d`), by long
division, stopping when the remainder vanishes. -/
def fracChars : Nat → Nat → Nat → List Char
  | 0, _, _ => []
  | fuel+1, r, d =>
    if r = 0 then []
    else digitChar (r * 10 / d) :: fracChars fuel (r * 10 % d) d

/-- Exact decimal rendering of a rational, matching the JavaScript
`Number#toString` output on the terminating decimals this app produces. -/
def ratToChars (q : ℚ) : List Char :=
  let na : Nat := q.num.natAbs
  let d : Nat := q.den
  (if q.num < 0 then ['-'] else [])
    ++ natToChars (na / d)
    ++ (if na % d = 0 then [] else '.' :: fracChars 40 (na % d) d)

/-! ### String coercion (the implicit `ToString` applied by `JSON.parse`
to a non-string argument) -/

mutual

/-- JS string coercion `String(v)` of a defined value: `null` becomes
`"null"`, arrays join their elements with commas, and plain objects
become `"[object Object]"`. -/
def jsValueCoerce : JsValue → String
  | .null => "null"
  | .bool true => "true"
  | .bool false => "false"
  | .num q => String.mk (ratToChars q)
  | .str s => s
  | .obj _ => "[object Object]"
  | .arr l => jsArrJoin l

/-- `Array.prototype.join(",")` on the elements, which renders a `null`
element as the empty string. -/
def jsArrJoin : List JsValue → String
  | [] => ""
  | [.null] => ""
  | [e] => jsValueCoerce e
  | .null :: rest => "," ++ jsArrJoin rest
  | e :: rest => jsValueCoerce e ++ "," ++ jsArrJoin rest

end

/-- JS string coercion of a possibly-`undefined` value, as applied by
`JSON.parse` to its argument: `undefined` becomes the string
`"undefined"`. -/
def jsCoerceToString : Option JsValue → String
  | none => "undefined"
  | some v => jsValueCoerce v

/-! ### `JSON.parse`

A strict executable JSON reader: it accepts exactly the JSON grammar
(no trailing commas, no leading zeros, string escapes including
`\uXXXX` surrogate pairs) and is used both for the top-level response
body, via `response.json()`, and for the per-item `JSON.parse(result.text)`. -/

/-- JSON whitespace: space, tab, line feed, carriage return. -/
def isJsonWs (c : Char) : Bool :=
  c.toNat = 32 || c.toNat = 9 || c.toNat = 10 || c.toNat = 13

/-- Drop leading JSON whitespace. -/
def dropJsonWs (cs : List Char) : List Char :=
  match cs with
  | [] => []
  | c :: tl => if isJsonWs c then dropJsonWs tl else cs

/-- Numeric value of one hexadecimal digit character, via its code
point (digits, then lowercase, then uppercase letters). -/
def hexDigitValue (c : Char) : Option Nat :=
  let n := c.toNat
  if 48 ≤ n && n ≤ 57 then some (n - 48)
  else if 97 ≤ n && n ≤ 102 then some (n - 87)
  else if 65 ≤ n && n ≤ 70 then some (n - 55)
  else none

/-- Scalar for a `\uXXXX` escape that is not part of a surrogate pair:
lone surrogates (which Lean characters cannot carry) are replaced by
U+FFFD, every other code unit denotes itself. -/
def charOfUnit (n : Nat) : Char :=
  if 0xD800 ≤ n && n ≤ 0xDFFF then Char.ofNat 0xFFFD else Char.ofNat n

/-- Code units denoted by two adjacent `\uXXXX` escapes: a valid
surrogate pair combines into one character, otherwise each unit stands
alone. -/
def unitPairChars (hi lo : Nat) : List Char :=
  if 0xD800 ≤ hi && hi ≤ 0xDBFF && 0xDC00 ≤ lo && lo ≤ 0xDFFF then
    [Char.ofNat (0x10000 + (hi - 0xD800) * 0x400 + (lo - 0xDC00))]
  else [charOfUnit hi, charOfUnit lo]

/-- Character denoted by a one-character escape sequence, when legal. -/
def simpleEscChar (e : Char) : Option Char :=
  if e = '"' then some '"'
  else if e = '\\' then some '\\'
  else if e = '/' then some '/'
  else if e = 'b' then some (Char.ofNat 8)
  else if e = 'f' then some (Char.ofNat 12)
  else if e = 'n' then some (Char.ofNat 10)
  else if e = 'r' then some (Char.ofNat 13)
  else if e = 't' then some (Char.ofNat 9)
  else none

/-- Parse the body of a JSON string literal (the opening quote already
consumed); returns the decoded characters and the rest of the input. -/
def jsonStrBody : List Char → Option (List Char × List Char)
  | [] => none
  | '"' :: rest => some ([], rest)
  | '\\' :: 'u' :: h1 :: h2 :: h3 :: h4 :: '\\' :: 'u' :: g1 :: g2 :: g3 :: g4 :: rest =>
    match hexDigitValue h1, hexDigitValue h2, hexDigitValue h3, hexDigitValue h4 with
    | some a, some b, some c, some d =>
      match hexDigitValue g1, hexDigitValue g2, hexDigitValue g3, hexDigitValue g4 with
      | some a2, some b2, some c2, some d2 =>
        let hi := ((a * 16 + b) * 16 + c) * 16 + d
        let lo := ((a2 * 16 + b2) * 16 + c2) * 16 + d2
        (jsonStrBody rest).map fun r => (unitPairChars hi lo ++ r.1, r.2)
      | _, _, _, _ => none
    | _, _, _, _ => none
  | '\\' :: 'u' :: h1 :: h2 :: h3 :: h4 :: rest =>
    match hexDigitValue h1, hexDigitValue h2, hexDigitValue h3, hexDigitValue h4 with
    | some a, some b, some c, some d =>
      (jsonStrBody rest).map fun r =>
        (charOfUnit (((a * 16 + b) * 16 + c) * 16 + d) :: r.1, r.2)
    | _, _, _, _ => none
  | '\\' :: e :: rest =>
    match simpleEscChar e with
    | some c => (jsonStrBody rest).map fun r => (c :: r.1, r.2)
    | none => none
  | c :: rest =>
    if c.toNat < 0x20 then none
    else (jsonStrBody rest).map fun r => (c :: r.1, r.2)

/-- Leading run of decimal digits and the rest of the input. -/
def digitSpan (cs : List Char) : List Char × List Char :=
  (cs.takeWhile Char.isDigit, cs.dropWhile Char.isDigit)

/-- Natural number denoted by a digit string. -/
def digitsToNat (ds : List Char) : Nat :=
  ds.foldl (fun acc d => 10 * acc + (d.toNat - 48)) 0

/-- Assemble the rational denoted by a JSON number from its parts:
`sign`, integer digits, fractional digits, exponent sign and exponent
digits.  Built with `mkRat` and integer powers only, so that the kernel
can evaluate it. -/
def jsonNumVal (neg : Bool) (intDs fracDs : List Char) (expNeg : Bool) (expDs : List Char) : ℚ :=
  let mant : Nat := digitsToNat intDs * 10 ^ fracDs.length + digitsToNat fracDs
  let e : Int := (if expNeg then -(digitsToNat expDs : Int) else (digitsToNat expDs : Int)) - fracDs.length
  let m : Int := if neg then -(mant : Int) else (mant : Int)
  if 0 ≤ e then mkRat (m * 10 ^ e.toNat) 1 else mkRat m (10 ^ (-e).toNat)

/-- Parse a JSON number (strict grammar: optional minus, no leading
zeros, optional fraction and exponent each requiring at least one
digit). -/
def jsonNumTok (cs : List Char) : Option (JsValue × List Char) :=
  let (neg, cs1) : Bool × List Char :=
    match cs with
    | '-' :: rest => (true, rest)
    | _ => (false, cs)
  let intPart : Option (List Char × List Char) :=
    match cs1 with
    | '0' :: rest =>
      match rest with
      | c :: _ => if c.isDigit then none else some (['0'], rest)
      | [] => some (['0'], [])
    | c :: _ => if c.isDigit then some (digitSpan cs1) else none
    | [] => none
  match intPart with
  | none => none
  | some (intDs, cs2) =>
    let fracPart : Option (List Char × List Char) :=
      match cs2 with
      | '.' :: rest =>
        let (ds, rest2) := digitSpan rest
        if ds.isEmpty then none else some (ds, rest2)
      | _ => some ([], cs2)
    match fracPart with
    | none => none
    | some (fracDs, cs3) =>
      let expPart : Option (Bool × List Char × List Char) :=
        match cs3 with
        | c :: rest =>
          if c = 'e' || c = 'E' then
            let (en, rest1) : Bool × List Char :=
              match rest with
              | '+' :: r => (false, r)
              | '-' :: r => (true, r)
              | _ => (false, rest)
            let (ds, rest2) := digitSpan rest1
            if ds.isEmpty then none else some (en, ds, rest2)
          else some (false, [], cs3)
        | [] => some (false, [], [])
      match expPart with
      | none => none
      | some (expNeg, expDs, cs4) =>
        some (.num (jsonNumVal neg intDs fracDs expNeg expDs), cs4)

mutual

/-- Parse one JSON value (leading whitespace allowed), returning it with
the unconsumed remainder.  The fuel only bounds nesting depth. -/
def jsonValueAux : Nat → List Char → Option (JsValue × List Char)
  | 0, _ => none
  | fuel+1, cs =>
    match dropJsonWs cs with
    | 'n' :: tl =>
      match tl with
      | 'u' :: 'l' :: 'l' :: rest => some (.null, rest)
      | _ => none
    | 't' :: tl =>
      match tl with
      | 'r' :: 'u' :: 'e' :: rest => some (.bool true, rest)
      | _ => none
    | 'f' :: tl =>
      match tl with
      | 'a' :: 'l' :: 's' :: 'e' :: rest => some (.bool false, rest)
      | _ => none
    | '"' :: rest => (jsonStrBody rest).map fun r => (.str (String.mk r.1), r.2)
    | '[' :: rest =>
      match dropJsonWs rest with
      | ']' :: r2 => some (.arr [], r2)
      | _ => (jsonItemsAux fuel rest).map fun r => (.arr r.1, r.2)
    | '{' :: rest =>
      match dropJsonWs rest with
      | '}' :: r2 => some (.obj [], r2)
      | _ => (jsonFieldsAux fuel rest).map fun r => (.obj r.1, r.2)
    | rest => jsonNumTok rest

/-- Parse the non-empty comma-separated element list of a JSON array,
up to and including the closing bracket. -/
def jsonItemsAux : Nat → List Char → Option (List JsValue × List Char)
  | 0, _ => none
  | fuel+1, cs =>
    match jsonValueAux fuel cs with
    | none => none
    | some (v, rest) =>
      match dropJsonWs rest with
      | ',' :: r2 => (jsonItemsAux fuel r2).map fun r => (v :: r.1, r.2)
      | ']' :: r2 => some ([v], r2)
      | _ => none

/-- Parse the non-empty member list of a JSON object, up to and
including the closing brace. -/
def jsonFieldsAux : Nat → List Char → Option (List (String × JsValue) × List Char)
  | 0, _ => none
  | fuel+1, cs =>
    match dropJsonWs cs with
    | '"' :: rest =>
      match jsonStrBody rest with
      | none => none
      | some (k, rest2) =>
        match dropJsonWs rest2 with
        | ':' :: rest3 =>
          match jsonValueAux fuel rest3 with
          | none => none
          | some (v, rest4) =>
            match dropJsonWs rest4 with
            | ',' :: r5 => (jsonFieldsAux fuel r5).map fun r => ((String.mk k, v) :: r.1, r.2)
            | '}' :: r5 => some ([(String.mk k, v)], r5)
            | _ => none
        | _ => none
    | _ => none

end

/-- `JSON.parse`: parse the whole string as one JSON value (surrounding
whitespace allowed); `none` models the thrown `SyntaxError`. -/
def jsonParse (s : String) : Option JsValue :=
  match jsonValueAux (2 * s.length + 8) s.toList with
  | some (v, rest) => if (dropJsonWs rest).isEmpty then some v else none
  | none => none

/-! ### Result normalization (`processedResults`, `App.tsx` lines 75–93)

Each raw item is mapped through a `try`/`catch`: parse `result.text` as
JSON and project five fields, and on any throw (parse failure, or a
property read on `null`) fall back to the record containing only the raw
`text`.  `Except.error` models a throw that the per-item `catch` did not
absorb (it re-throws while building the fallback record). -/

/-- The `try` block of the `map` callback: read `result.text`, parse it
as JSON, and project the five named fields of the parsed value (reading
a property of `null` throws). -/
def normalizeAttempt (item : JsValue) : Except Unit JsRecord :=
  match getPropE item "text" with
  | .error e => .error e
  | .ok t =>
    match jsonParse (jsCoerceToString t) with
    | none => .error ()
    | some v =>
      match getPropE v "name" with
      | .error e => .error e
      | .ok n =>
        match getPropE v "location" with
        | .error e => .error e
        | .ok l =>
          match getPropE v "summary" with
          | .error e => .error e
          | .ok sm =>
            match getPropE v "text" with
            | .error e => .error e
            | .ok tx =>
              match getPropE v "score" with
              | .error e => .error e
              | .ok sc =>
                .ok [("name", n), ("location", l), ("summary", sm),
                     ("text", tx), ("score", sc)]

/-- One raw result item through the `try`/`catch` of the `map`
callback: on any throw, fall back to the record containing only the raw
`text` (whose read can itself throw, uncaught, in the `catch` block). -/
def normalizeItemE (item : JsValue) : Except Unit JsRecord :=
  match normalizeAttempt item with
  | .ok r => .ok r
  | .error _ => (getPropE item "text").map fun t => [("text", t)]

/-- `Array.prototype.map` with a callback that can throw: elements are
processed in order and the first throw aborts the whole map. -/
def mapE (f : JsValue → Except Unit JsRecord) : List JsValue → Except Unit (List JsRecord)
  | [] => .ok []
  | x :: xs =>
    match f x with
    | .error e => .error e
    | .ok y =>
      match mapE f xs with
      | .error e => .error e
      | .ok ys => .ok (y :: ys)

/-- `data['results'].map(...)`: calling `.map` on anything that is not an
array throws (`undefined` has no properties, and no other JSON value has
a callable `map`). -/
def mapResultsE : Option JsValue → Except Unit (List JsRecord)
  | some (.arr items) => mapE normalizeItemE items
  | _ => .error ()

/-! ### The controller state and the debounced callback body
(`App.tsx` lines 36–101) -/

/-- `ToNumber` coercion applied by the division `x / 1_000_000`:
`undefined` gives `NaN` (modelled by `none`), `null` gives `0`, booleans
give `0`/`1`, numbers give themselves.  Strings, arrays and objects never
reach this coercion in the controller and are mapped to `NaN`. -/
def toNumber : Option JsValue → Option ℚ
  | none => none
  | some .null => some 0
  | some (.bool true) => some 1
  | some (.bool false) => some 0
  | some (.num q) => some q
  | some (.str _) => none
  | some (.arr _) => none
  | some (.obj _) => none

/-- The `TimingMetrics` record: server-reported spans in milliseconds
(`none` models `NaN`, from a missing field) and the client-measured
wall-clock total. -/
structure TimingMetrics where
  embeddings : Option ℚ
  search : Option ℚ
  total : ℚ
deriving DecidableEq

/-- The React state owned by the component: `results`, `loading`,
`error`, `timingMetrics`, plus the `console.error` log. -/
structure ControllerState where
  results : List JsRecord
  loading : Bool
  error : Option String
  timingMetrics : Option TimingMetrics
  consoleLog : List String

/-- The user-facing error message set by the `catch` block. -/
def fetchFailedMsg : String := "Failed to fetch results. Please try again."

/-- The `console.error` tag logged with the underlying error detail. -/
def fetchErrorLogTag : String := "Error fetching search results:"

/-- State after the `catch` and `finally` blocks run on a throw. -/
def errState (s : ControllerState) : ControllerState :=
  { s with error := some fetchFailedMsg, loading := false,
           consoleLog := s.consoleLog ++ [fetchErrorLogTag] }

/-- The user-editable query parameters, as passed to `debouncedSearch`. -/
structure Params where
  searchTerm : String
  threshold : ℚ
  fast : Bool
  limit : Nat
  speed : Nat
  dataset : String
deriving DecidableEq

/-- The initial parameter values of the component
(`useState` initializers, `App.tsx` lines 22–31). -/
def defaultParams : Params :=
  { searchTerm := "", threshold := mkRat 1 2, fast := false,
    limit := 10, speed := 0, dataset := "reviews" }

/-- The possible outcomes of the single `fetch` call: a transport
failure (the promise rejects) or an HTTP response with a status code and
a body string (`response.json()` parses the body). -/
inductive FetchOutcome : Type where
  | failure : FetchOutcome
  | response : Nat → String → FetchOutcome
deriving DecidableEq

/-- The body of the debounced callback (`App.tsx` lines 36–101), as a
pure transformer of the component state.  `outcome` is the environment's
response to the single `fetch`, `elapsed` the value of
`endTime - startTime`.  The returned number counts HTTP requests issued
during the run (`0` or `1`). -/
def runCallback (p : Params) (outcome : FetchOutcome) (elapsed : ℚ)
    (s : ControllerState) : ControllerState × Nat :=
  if p.searchTerm = "" then
    -- `if (!search)`: clear results and timing, skip everything else
    ({ s with results := [], timingMetrics := none }, 0)
  else
    let s1 := { s with loading := true, error := none, timingMetrics := none }
    match outcome with
    | .failure => (errState s1, 1)
    | .response status body =>
      if ¬ (200 ≤ status ∧ status ≤ 299) then
        -- `if (!response.ok) throw ...`
        (errState s1, 1)
      else
        match jsonParse body with
        | none => (errState s1, 1)  -- `response.json()` rejects
        | some data =>
          match getPropE data "embedding_time" with
          | .error _ => (errState s1, 1)
          | .ok et =>
            match getPropE data "search_time" with
            | .error _ => (errState s1, 1)
            | .ok st =>
              let tm : TimingMetrics :=
                { embeddings := (toNumber et).map (· / 1000000),
                  search := (toNumber st).map (· / 1000000),
                  total := elapsed }
              let s2 := { s1 with timingMetrics := some tm }
              match getPropE data "results" with
              | .error _ => (errState s2, 1)
              | .ok raw =>
                match mapResultsE raw with
                | .error _ => (errState s2, 1)
                | .ok rs => ({ s2 with results := rs, loading := false }, 1)

/-! ### URL construction (`App.tsx` line 51) -/

/-- Characters that `encodeURIComponent` leaves unescaped. -/
def isUnreservedURI (c : Char) : Bool :=
  ('A' ≤ c && c ≤ 'Z') || ('a' ≤ c && c ≤ 'z') || ('0' ≤ c && c ≤ '9')
    || c == '-' || c == '_' || c == '.' || c == '!' || c == '~'
    || c == '*' || c == Char.ofNat 39 || c == '(' || c == ')'

/-- UTF-8 bytes of a character. -/
def utf8Bytes (c : Char) : List Nat :=
  let n := c.toNat
  if n < 0x80 then [n]
  else if n < 0x800 then [0xC0 + n / 64, 0x80 + n % 64]
  else if n < 0x10000 then [0xE0 + n / 4096, 0x80 + n / 64 % 64, 0x80 + n % 64]
  else [0xF0 + n / 262144, 0x80 + n / 4096 % 64, 0x80 + n / 64 % 64, 0x80 + n % 64]

/-- Percent-encoding of one byte, with uppercase hexadecimal digits. -/
def pctEncodeByte (b : Nat) : List Char :=
  ['%', hexDigitChar (b / 16 % 16), hexDigitChar (b % 16)]

/-- `encodeURIComponent`: unreserved characters stand for themselves,
every other character is replaced by the percent-encoding of its UTF-8
bytes. -/
def encodeURIComponent (s : List Char) : List Char :=
  s.flatMap fun c =>
    if isUnreservedURI c then [c] else (utf8Bytes c).flatMap pctEncodeByte

/-- The query string of the template literal at `App.tsx` line 51: the
interpolations use `encodeURIComponent` for the search term and the
implicit number/boolean/string coercions for the rest. -/
def queryString (p : Params) : List Char :=
  ("search=").toList ++ encodeURIComponent p.searchTerm.toList
    ++ ("&optimized=").toList ++ (if p.fast then "true" else "false").toList
    ++ ("&limit=").toList ++ natToChars p.limit
    ++ ("&threshold=").toList ++ ratToChars p.threshold
    ++ ("&speed=").toList ++ natToChars p.speed
    ++ ("&dataset=").toList ++ p.dataset.toList

/-- The full request URL built by the controller. -/
def buildSearchUrl (p : Params) : List Char :=
  ("https://po65lcryad.execute-api.us-east-1.amazonaws.com/dev/search?").toList
    ++ queryString p

/-! ### Reading a query string back (the observer used to state what
parameters a URL carries) -/

/-- Split a query string at its `&` separators. -/
def splitOnAmp : List Char → List (List Char)
  | [] => [[]]
  | c :: cs =>
    if c = '&' then [] :: splitOnAmp cs
    else (c :: (splitOnAmp cs).headD []) :: (splitOnAmp cs).tail

/-- Split one `key=value` segment at its first `=`. -/
def splitParam : List Char → List Char × List Char
  | [] => ([], [])
  | c :: cs =>
    if c = '=' then ([], cs)
    else
      let r := splitParam cs
      (c :: r.1, r.2)

/-- The key/value pairs carried by a query string. -/
def parseQuery (cs : List Char) : List (List Char × List Char) :=
  (splitOnAmp cs).map splitParam

/-! ### The lodash debounce wrapper (`_.debounce(..., 500)`, trailing
edge) and the effect hook that invokes it on every parameter edit
(`App.tsx` lines 35–109) -/

/-- Invocation times and arguments of the debounced callback for a trace
of edits `(time, params)` at strictly increasing times: a pending timer
is re-armed by any edit arriving within 500 ms, so an edit fires at
`t + 500` exactly when no further edit happens before that deadline. -/
def debounceFires : List (ℚ × Params) → List (ℚ × Params)
  | [] => []
  | (t, a) :: rest =>
    match rest with
    | [] => [(t + 500, a)]
    | (t', _) :: _ =>
      (if 500 ≤ t' - t then [(t + 500, a)] else []) ++ debounceFires rest

/-- The HTTP requests issued for an edit trace: each debounce fire runs
the callback, which issues one request with the current parameter values
unless the search term is empty. -/
def issuedRequests (edits : List (ℚ × Params)) : List (ℚ × List Char) :=
  ((debounceFires edits).filter fun f => f.2.searchTerm ≠ "").map
    fun f => (f.1, buildSearchUrl f.2)

/-- The `Idle` presentation state of the spec (section 3, RequestState):
nothing loading, no error, no results, no timing. -/
def IsIdle (s : ControllerState) : Prop :=
  s.results = [] ∧ s.loading = false ∧ s.error = none ∧ s.timingMetrics = none

/-- The initial component state, before any request has run. -/
def initialState : ControllerState :=
  { results := [], loading := false, error := none,
    timingMetrics := none, consoleLog := [] }

/-- The component state after a failed request: the generic error
message is displayed. -/
def errorState : ControllerState :=
  { results := [], loading := false, error := some fetchFailedMsg,
    timingMetrics := none, consoleLog := [fetchErrorLogTag] }

/-- Parameters with the search term `coffee` and all other controls at
their defaults. -/
def coffeeParams : Params := { defaultParams with searchTerm := "coffee" }

/-- A component state left over by an earlier successful request:
one result on screen and timing shown. -/
def staleState : ControllerState :=
  { results := [[("text", some (.str "x"))]], loading := false, error := none,
    timingMetrics := some { embeddings := some 1, search := some 1, total := 1 },
    consoleLog := [] }

/-- A successful response body with server timings and an empty results
array. -/
def successBody : String :=
  "\x7b\"embedding_time\":30000000,\"search_time\":60000000,\"results\":[]\x7d"

/-- The JSON value carried by `successBody`. -/
def successData : JsValue :=
  .obj [("embedding_time", .num (mkRat 30000000 1)),
        ("search_time", .num (mkRat 60000000 1)),
        ("results", .arr [])]

/-- The five keys of the record built by the projection branch of the
normalization. -/
def projKeys : List String := ["name", "location", "summary", "text", "score"]

/-- The raw `text` payload of the well-formed example item of the spec. -/
def exampleItemText : String := "\x7b\"name\":\"A\",\"score\":0.9\x7d"

/-- The value `JSON.parse` yields on `exampleItemText`. -/
def exampleParsed : JsValue := .obj [("name", .str "A"), ("score", .num (mkRat 9 10))]

/-- The normalized record for the well-formed example item. -/
def exampleProjRec : JsRecord :=
  [("name", some (.str "A")), ("location", none), ("summary", none),
   ("text", none), ("score", some (.num (mkRat 9 10)))]

/-- A raw item whose `text` carries a JSON object with an unrecognized
field besides `name`. -/
def extraFieldText : String := "\x7b\"name\":\"A\",\"extra\":1\x7d"

/-- A raw item whose `text` is plain prose, not JSON. -/
def malformedItem1 : JsValue := .obj [("text", .str "2 cups of coffee")]

/-- A second plain-prose raw item. -/
def malformedItem2 : JsValue := .obj [("text", .str "great place!")]

/-- A raw results array with two malformed items followed by one
well-formed item. -/
def threeItems : List JsValue :=
  [malformedItem1, malformedItem2, .obj [("text", .str exampleItemText)]]

/-- The normalized records for `threeItems`. -/
def threeRecs : List JsRecord :=
  [[("text", some (.str "2 cups of coffee"))],
   [("text", some (.str "great place!"))],
   exampleProjRec]

/-!  ## Helper lemmas -/

theorem getPropE_of_ne_null (v : JsValue) (hv : v ≠ .null) (k : String) :
    getPropE v k = .ok (jsProp v k) := by
  cases v with
  | null => exact absurd rfl hv
  | bool b => rfl
  | num q => rfl
  | str s => rfl
  | arr l => rfl
  | obj fs => rfl

theorem normalizeAttempt_proj (item : JsValue) (s : String) (v : JsValue)
    (ht : getPropE item "text" = .ok (some (.str s)))
    (hp : jsonParse s = some v) (hv : v ≠ .null) :
    normalizeAttempt item =
      .ok [("name", jsProp v "name"), ("location", jsProp v "location"),
           ("summary", jsProp v "summary"), ("text", jsProp v "text"),
           ("score", jsProp v "score")] := by
  simp only [normalizeAttempt, ht, jsCoerceToString, jsValueCoerce, hp,
    getPropE_of_ne_null v hv]

theorem normalize_proj (item : JsValue) (s : String) (v : JsValue)
    (ht : getPropE item "text" = .ok (some (.str s)))
    (hp : jsonParse s = some v) (hv : v ≠ .null) :
    normalizeItemE item =
      .ok [("name", jsProp v "name"), ("location", jsProp v "location"),
           ("summary", jsProp v "summary"), ("text", jsProp v "text"),
           ("score", jsProp v "score")] := by
  unfold normalizeItemE
  rw [normalizeAttempt_proj item s v ht hp hv]

theorem normalize_parse_fail (item : JsValue) (s : String)
    (ht : getPropE item "text" = .ok (some (.str s)))
    (hp : jsonParse s = none) :
    normalizeItemE item = .ok [("text", some (.str s))] := by
  simp only [normalizeItemE, normalizeAttempt, ht, jsCoerceToString,
    jsValueCoerce, hp, Except.map]

theorem normalize_parsed_null (item : JsValue) (s : String)
    (ht : getPropE item "text" = .ok (some (.str s)))
    (hp : jsonParse s = some .null) :
    normalizeItemE item = .ok [("text", some (.str s))] := by
  simp only [normalizeItemE, normalizeAttempt, ht, jsCoerceToString,
    jsValueCoerce, hp]
  simp only [getPropE, Except.map]

theorem mapE_forall2 (f : JsValue → Except Unit JsRecord) :
    ∀ (l : List JsValue) (rs : List JsRecord), mapE f l = .ok rs →
      List.Forall₂ (fun x y => f x = .ok y) l rs := by
  intro l
  induction l with
  | nil =>
    intro rs h
    cases h
    exact List.Forall₂.nil
  | cons x xs ih =>
    intro rs h
    unfold mapE at h
    cases hfx : f x with
    | error e => rw [hfx] at h; cases h
    | ok y =>
      rw [hfx] at h
      cases hm : mapE f xs with
      | error e => rw [hm] at h; cases h
      | ok ys =>
        rw [hm] at h
        cases h
        exact List.Forall₂.cons hfx (ih ys hm)

theorem normalizeItemE_keys (item : JsValue) (r : JsRecord)
    (h : normalizeItemE item = .ok r) :
    r.map Prod.fst = projKeys ∨ r.map Prod.fst = ["text"] := by
  unfold normalizeItemE at h
  cases ha : normalizeAttempt item with
  | ok r0 =>
    simp only [ha] at h
    cases h
    left
    unfold normalizeAttempt at ha
    cases h1 : getPropE item "text" with
    | error e => simp [h1] at ha
    | ok t =>
      simp only [h1] at ha
      cases h2 : jsonParse (jsCoerceToString t) with
      | none => simp [h2] at ha
      | some v =>
        simp only [h2] at ha
        cases h3 : getPropE v "name" with
        | error e => simp [h3] at ha
        | ok n =>
          simp only [h3] at ha
          cases h4 : getPropE v "location" with
          | error e => simp [h4] at ha
          | ok l =>
            simp only [h4] at ha
            cases h5 : getPropE v "summary" with
            | error e => simp [h5] at ha
            | ok sm =>
              simp only [h5] at ha
              cases h6 : getPropE v "text" with
              | error e => simp [h6] at ha
              | ok tx =>
                simp only [h6] at ha
                cases h7 : getPropE v "score" with
                | error e => simp [h7] at ha
                | ok sc =>
                  simp only [h7] at ha
                  cases ha
                  rfl
  | error e =>
    simp only [ha] at h
    cases h1 : getPropE item "text" with
    | error e2 => simp [h1, Except.map] at h
    | ok t =>
      simp only [h1, Except.map] at h
      cases h
      right
      rfl

/-! ## Claims C2, C3, C9, C10: result normalization -/

/-- C2, counterexample: the raw text `"null"` parses as JSON (to the
value `null`), yet normalization does not return the projected record —
it takes the fallback branch and keeps the raw text, because reading a
property of `null` throws inside the `try` block. -/
theorem c2_null_text_counterexample :
    (jsonParse "null").isSome = true ∧
    normalizeItemE (.obj [("text", .str "null")]) = .ok [("text", some (.str "null"))] ∧
    ([("text", some (.str "null"))] : JsRecord).map Prod.fst ≠ projKeys := by
  refine ⟨rfl, rfl, by decide⟩

/-- C2, amended: for every raw item whose `text` field is a string that
parses as JSON to a value other than `null`, normalization returns the
record whose `name`, `location`, `summary`, `text` and `score` fields
are exactly the correspondingly named fields of the parsed value (absent
fields become `undefined`, and the parsed value's own `text` field
replaces the outer raw `text`). -/
theorem c2_projection_of_parsed_text (item : JsValue) (s : String) (v : JsValue)
    (ht : getPropE item "text" = .ok (some (.str s)))
    (hp : jsonParse s = some v) (hv : v ≠ .null) :
    normalizeItemE item =
      .ok [("name", jsProp v "name"), ("location", jsProp v "location"),
           ("summary", jsProp v "summary"), ("text", jsProp v "text"),
           ("score", jsProp v "score")] :=
  normalize_proj item s v ht hp hv

/-- C2, witness: the item whose text is the JSON object with name `A`
and score `0.9` normalizes to the record with those two fields set and
`location`, `summary` and `text` undefined. -/
theorem c2_projection_witness :
    getPropE (.obj [("text", .str exampleItemText)]) "text" = .ok (some (.str exampleItemText)) ∧
    jsonParse exampleItemText = some exampleParsed ∧
    exampleParsed ≠ .null ∧
    normalizeItemE (.obj [("text", .str exampleItemText)]) = .ok exampleProjRec :=
  ⟨rfl, rfl, fun h => JsValue.noConfusion h,
   c2_projection_of_parsed_text (.obj [("text", .str exampleItemText)])
     exampleItemText exampleParsed rfl rfl (fun h => JsValue.noConfusion h)⟩

/-- C3: an item whose `text` does not parse as JSON normalizes, without
throwing, to the record holding only the raw text; and the map over a
raw results array is per-item: the output has the same length and its
`i`-th entry is the normalization of the `i`-th input item alone. -/
theorem c3_per_item_fallback :
    (∀ (item : JsValue) (s : String),
        getPropE item "text" = .ok (some (.str s)) → jsonParse s = none →
        normalizeItemE item = .ok [("text", some (.str s))]) ∧
    (∀ (items : List JsValue) (rs : List JsRecord),
        mapResultsE (some (.arr items)) = .ok rs →
        rs.length = items.length ∧
        ∀ (i : Nat) (h1 : i < items.length) (h2 : i < rs.length),
          normalizeItemE (items.get ⟨i, h1⟩) = .ok (rs.get ⟨i, h2⟩)) := by
  constructor
  · exact fun item s ht hp => normalize_parse_fail item s ht hp
  · intro items rs h
    have h2 := mapE_forall2 normalizeItemE items rs h
    have h3 := List.forall₂_iff_get.mp h2
    exact ⟨h3.1.symm, fun i h1 hr => h3.2 i h1 hr⟩

/-- C3, witness: two malformed items followed by the well-formed example
item normalize to a three-entry array, the first two being raw-text
fallbacks and the third the parsed projection. -/
theorem c3_per_item_fallback_witness :
    normalizeItemE malformedItem1 = .ok [("text", some (.str "2 cups of coffee"))] ∧
    mapResultsE (some (.arr threeItems)) = .ok threeRecs ∧
    threeRecs.length = threeItems.length ∧
    normalizeItemE (threeItems.get ⟨0, by decide⟩) = .ok (threeRecs.get ⟨0, by decide⟩) ∧
    normalizeItemE (threeItems.get ⟨1, by decide⟩) = .ok (threeRecs.get ⟨1, by decide⟩) ∧
    normalizeItemE (threeItems.get ⟨2, by decide⟩) = .ok (threeRecs.get ⟨2, by decide⟩) :=
  ⟨c3_per_item_fallback.1 malformedItem1 "2 cups of coffee" rfl rfl, rfl,
   (c3_per_item_fallback.2 threeItems threeRecs rfl).1,
   (c3_per_item_fallback.2 threeItems threeRecs rfl).2 0 (by decide) (by decide),
   (c3_per_item_fallback.2 threeItems threeRecs rfl).2 1 (by decide) (by decide),
   (c3_per_item_fallback.2 threeItems threeRecs rfl).2 2 (by decide) (by decide)⟩

/-- C9, counterexample: an item whose text parses to an object with an
unrecognized field `extra` normalizes to a record that does not carry
`extra` — unrecognized fields are dropped, not passed through. -/
theorem c9_no_passthrough_counterexample :
    normalizeItemE (.obj [("text", .str extraFieldText)]) =
      .ok [("name", some (.str "A")), ("location", none), ("summary", none),
           ("text", none), ("score", none)] ∧
    "extra" ∉ ([("name", some (JsValue.str "A")), ("location", none), ("summary", none),
                ("text", none), ("score", none)] : JsRecord).map Prod.fst := by
  exact ⟨rfl, by decide⟩

/-- C9, amended: every record produced by normalization carries either
exactly the five projected keys (projection branch) or exactly the key
`text` (fallback branch); in particular no unrecognized field of the
parsed object is passed through. -/
theorem c9_only_projected_keys (item : JsValue) (r : JsRecord)
    (h : normalizeItemE item = .ok r) :
    r.map Prod.fst = projKeys ∨ r.map Prod.fst = ["text"] :=
  normalizeItemE_keys item r h

/-- C9, witness: the key list of the example projection record. -/
theorem c9_only_projected_keys_witness :
    exampleProjRec.map Prod.fst = projKeys ∨ exampleProjRec.map Prod.fst = ["text"] :=
  c9_only_projected_keys (.obj [("text", .str exampleItemText)]) exampleProjRec rfl

/-- C10: an item whose text parses as JSON `null` and an item whose
`text` field is missing both take the fallback branch (the latter with
`undefined` raw text), while an item whose text parses to a non-`null`
non-object value yields the projected record with all five fields
`undefined`, discarding the raw text. -/
theorem c10_edge_normalization :
    normalizeItemE (.obj [("text", .str "null")]) = .ok [("text", some (.str "null"))] ∧
    normalizeItemE (.obj []) = .ok [("text", none)] ∧
    (∀ (item : JsValue) (s : String) (v : JsValue),
        getPropE item "text" = .ok (some (.str s)) → jsonParse s = some v →
        v ≠ .null → (∀ fs, v ≠ .obj fs) →
        normalizeItemE item =
          .ok [("name", none), ("location", none), ("summary", none),
               ("text", none), ("score", none)]) := by
  refine ⟨rfl, rfl, ?_⟩
  intro item s v ht hp hv hobj
  have hproj := normalize_proj item s v ht hp hv
  have hn : ∀ k, jsProp v k = none := by
    intro k
    cases v with
    | null => exact absurd rfl hv
    | bool b => rfl
    | num q => rfl
    | str s2 => rfl
    | arr l => rfl
    | obj fs => exact absurd rfl (hobj fs)
  simp only [hn] at hproj
  exact hproj

/-- C10, witness: the number-valued text `"42"` parses but projects to a
record with every field `undefined`. -/
theorem c10_edge_normalization_witness :
    getPropE (.obj [("text", .str "42")]) "text" = .ok (some (.str "42")) ∧
    jsonParse "42" = some (.num (mkRat 42 1)) ∧
    normalizeItemE (.obj [("text", .str "42")]) =
      .ok [("name", none), ("location", none), ("summary", none),
           ("text", none), ("score", none)] :=
  ⟨rfl, rfl,
   c10_edge_normalization.2.2 (.obj [("text", .str "42")]) "42" (.num (mkRat 42 1))
     rfl rfl (fun h => JsValue.noConfusion h) (fun _ h => JsValue.noConfusion h)⟩

/-! ## Claims C4, C5, C6, C7: the debounced callback body -/

/-- C4, counterexample: a single edit at time 0 that clears the search
term produces its only callback invocation (the one that performs the
reset) at time 500, not at edit time 0 — the empty-term check sits
inside the debounced callback, so the reset waits for the window. -/
theorem c4_reset_not_immediate_counterexample :
    debounceFires [((0 : ℚ), defaultParams)] = [((0 : ℚ) + 500, defaultParams)] ∧
    (∀ f ∈ debounceFires [((0 : ℚ), defaultParams)], f.1 ≠ 0) := by
  refine ⟨rfl, ?_⟩
  intro f hf
  simp only [debounceFires, List.mem_singleton] at hf
  subst hf
  norm_num

/-- C4, amended: when the 500 ms window elapses after an edit that left
`searchTerm` empty, the debounced callback issues no request and resets
results and timing; the check is a value check inside the callback, so
the reset happens at `t + 500`, not at edit time. -/
theorem c4_reset_on_window_elapse (t : ℚ) (p : Params) (o : FetchOutcome)
    (el : ℚ) (s : ControllerState) (h : p.searchTerm = "") :
    debounceFires [(t, p)] = [(t + 500, p)] ∧
    runCallback p o el s = ({ s with results := [], timingMetrics := none }, 0) :=
  ⟨rfl, by simp [runCallback, h]⟩

/-- C4, witness: the empty-term fire at time 500 clears stale results
and timing without issuing a request. -/
theorem c4_reset_on_window_elapse_witness :
    defaultParams.searchTerm = "" ∧
    debounceFires [((0 : ℚ), defaultParams)] = [((0 : ℚ) + 500, defaultParams)] ∧
    runCallback defaultParams .failure 0 staleState =
      ({ staleState with results := [], timingMetrics := none }, 0) :=
  ⟨rfl, (c4_reset_on_window_elapse 0 defaultParams .failure 0 staleState rfl).1,
   (c4_reset_on_window_elapse 0 defaultParams .failure 0 staleState rfl).2⟩

/-- C5, counterexample: clearing the search term from a prior `Error`
state does not reach `Idle` — the empty-term branch clears results and
timing but never clears the error message. -/
theorem c5_error_survives_clear_counterexample :
    defaultParams.searchTerm = "" ∧
    (runCallback defaultParams .failure 0 errorState).1.error = some fetchFailedMsg ∧
    ¬ IsIdle (runCallback defaultParams .failure 0 errorState).1 := by
  refine ⟨rfl, rfl, ?_⟩
  intro h
  have he : some fetchFailedMsg = (none : Option String) := h.2.2.1
  exact Option.noConfusion he

/-- C5, amended: clearing `searchTerm` to empty always empties the
results, clears the timing and issues no request, but leaves the error
message (and the loading flag) of the prior state untouched, so a prior
`Error` state keeps its message. -/
theorem c5_clear_keeps_error (p : Params) (o : FetchOutcome) (el : ℚ)
    (s : ControllerState) (h : p.searchTerm = "") :
    (runCallback p o el s).1.results = [] ∧
    (runCallback p o el s).1.timingMetrics = none ∧
    (runCallback p o el s).1.error = s.error ∧
    (runCallback p o el s).1.loading = s.loading ∧
    (runCallback p o el s).2 = 0 := by
  simp [runCallback, h]

/-- C5, witness: clearing from the prior `Error` state keeps the error
message while emptying results and timing. -/
theorem c5_clear_keeps_error_witness :
    defaultParams.searchTerm = "" ∧
    (runCallback defaultParams .failure 0 errorState).1.results = [] ∧
    (runCallback defaultParams .failure 0 errorState).1.timingMetrics = none ∧
    (runCallback defaultParams .failure 0 errorState).1.error = errorState.error ∧
    (runCallback defaultParams .failure 0 errorState).2 = 0 :=
  ⟨rfl, (c5_clear_keeps_error defaultParams .failure 0 errorState rfl).1,
   (c5_clear_keeps_error defaultParams .failure 0 errorState rfl).2.1,
   (c5_clear_keeps_error defaultParams .failure 0 errorState rfl).2.2.1,
   (c5_clear_keeps_error defaultParams .failure 0 errorState rfl).2.2.2.2⟩

/-- C6, counterexample: a failing request does not leave the results
array empty — the error path never touches `results`, so results from an
earlier success survive into the `Error` state. -/
theorem c6_stale_results_counterexample :
    coffeeParams.searchTerm ≠ "" ∧
    (runCallback coffeeParams (.response 500 "") 1 staleState).1.error = some fetchFailedMsg ∧
    (runCallback coffeeParams (.response 500 "") 1 staleState).1.results =
      [[("text", some (.str "x"))]] ∧
    ([[("text", some (JsValue.str "x"))]] : List JsRecord) ≠ [] := by
  exact ⟨by decide, rfl, rfl, List.cons_ne_nil _ _⟩

/-- C6, amended: every request ending in a transport failure, a non-2xx
status, or a top-level body decode failure sets the single generic error
message (never the raw status code), logs the detail, clears the loading
flag, clears the timing, issues exactly one request with no retry, and
leaves the results array unchanged (hence empty only if it was empty
before). -/
theorem c6_error_transition (p : Params) (o : FetchOutcome) (el : ℚ)
    (s : ControllerState) (hterm : p.searchTerm ≠ "")
    (herr : o = .failure ∨
        (∃ st body, o = .response st body ∧ ¬ (200 ≤ st ∧ st ≤ 299)) ∨
        (∃ st body, o = .response st body ∧ (200 ≤ st ∧ st ≤ 299) ∧
          jsonParse body = none)) :
    (runCallback p o el s).1.error = some fetchFailedMsg ∧
    (runCallback p o el s).1.loading = false ∧
    (runCallback p o el s).1.results = s.results ∧
    (runCallback p o el s).1.timingMetrics = none ∧
    (runCallback p o el s).1.consoleLog = s.consoleLog ++ [fetchErrorLogTag] ∧
    (runCallback p o el s).2 = 1 := by
  rcases herr with h | ⟨st, body, ho, hst⟩ | ⟨st, body, ho, hst, hb⟩
  · subst h
    simp [runCallback, hterm, errState]
  · subst ho
    simp [runCallback, hterm, hst, errState]
  · subst ho
    simp [runCallback, hterm, hst, hb, errState]

/-- C6, witness: an HTTP 500 response from the initial state yields the
generic message, a cleared loading flag and untouched (empty) results. -/
theorem c6_error_transition_witness :
    coffeeParams.searchTerm ≠ "" ∧
    ¬ (200 ≤ 500 ∧ 500 ≤ 299) ∧
    (runCallback coffeeParams (.response 500 "") 1 initialState).1.error = some fetchFailedMsg ∧
    (runCallback coffeeParams (.response 500 "") 1 initialState).1.loading = false ∧
    (runCallback coffeeParams (.response 500 "") 1 initialState).1.results = initialState.results ∧
    (runCallback coffeeParams (.response 500 "") 1 initialState).2 = 1 :=
  ⟨by decide, by decide,
   (c6_error_transition coffeeParams (.response 500 "") 1 initialState (by decide)
      (Or.inr (Or.inl ⟨500, "", rfl, by decide⟩))).1,
   (c6_error_transition coffeeParams (.response 500 "") 1 initialState (by decide)
      (Or.inr (Or.inl ⟨500, "", rfl, by decide⟩))).2.1,
   (c6_error_transition coffeeParams (.response 500 "") 1 initialState (by decide)
      (Or.inr (Or.inl ⟨500, "", rfl, by decide⟩))).2.2.1,
   (c6_error_transition coffeeParams (.response 500 "") 1 initialState (by decide)
      (Or.inr (Or.inl ⟨500, "", rfl, by decide⟩))).2.2.2.2.2⟩

/-- C7: on a successful response, the displayed `embeddings` and
`search` timings are the body's `embedding_time` and `search_time`
(nanoseconds) divided by 1,000,000, and `total` is the client-measured
wall-clock elapsed time. -/
theorem c7_timing_conversion (p : Params) (status : Nat) (body : String)
    (el : ℚ) (s : ControllerState) (data : JsValue) (e1 e2 : ℚ)
    (hterm : p.searchTerm ≠ "") (hok : 200 ≤ status ∧ status ≤ 299)
    (hb : jsonParse body = some data)
    (he : getPropE data "embedding_time" = .ok (some (.num e1)))
    (hs : getPropE data "search_time" = .ok (some (.num e2))) :
    (runCallback p (.response status body) el s).1.timingMetrics =
      some { embeddings := some (e1 / 1000000), search := some (e2 / 1000000),
             total := el } := by
  simp only [runCallback, hterm, if_neg, hok, not_true, ite_false, hb, he, hs, toNumber]
  cases hgr : getPropE data "results" with
  | error e => simp [errState]
  | ok raw =>
    cases hmr : mapResultsE raw with
    | error e => simp [hmr, errState]
    | ok rs => simp [hmr]

/-- C7, witness: `embedding_time = 30000000` and
`search_time = 60000000` display as 30 ms and 60 ms. -/
theorem c7_timing_conversion_witness :
    coffeeParams.searchTerm ≠ "" ∧
    jsonParse successBody = some successData ∧
    getPropE successData "embedding_time" = .ok (some (.num (mkRat 30000000 1))) ∧
    (runCallback coffeeParams (.response 200 successBody) 5 initialState).1.timingMetrics =
      some { embeddings := some (mkRat 30000000 1 / 1000000),
             search := some (mkRat 60000000 1 / 1000000), total := 5 } ∧
    (mkRat 30000000 1 : ℚ) / 1000000 = 30 ∧
    (mkRat 60000000 1 : ℚ) / 1000000 = 60 :=
  ⟨by decide, rfl, rfl,
   c7_timing_conversion coffeeParams 200 successBody 5 initialState successData
     (mkRat 30000000 1) (mkRat 60000000 1) (by decide) (by decide) rfl rfl rfl,
   by rw [Rat.mkRat_one]; norm_num,
   by rw [Rat.mkRat_one]; norm_num⟩

/-! ## Claim C1: debounce semantics -/

theorem debounceFires_of_quick_edits :
    ∀ (edits : List (ℚ × Params)) (last : ℚ × Params),
      edits.getLast? = some last →
      edits.Chain' (fun a b => a.1 < b.1 ∧ b.1 - a.1 < 500) →
      debounceFires edits = [(last.1 + 500, last.2)] := by
  intro edits
  induction edits with
  | nil => intro last h _; cases h
  | cons x rest ih =>
    intro last hl hc
    cases rest with
    | nil =>
      rw [List.getLast?_singleton] at hl
      cases hl
      obtain ⟨t, a⟩ := x
      rfl
    | cons y rest2 =>
      rw [List.getLast?_cons_cons] at hl
      rw [List.chain'_cons] at hc
      obtain ⟨t, a⟩ := x
      obtain ⟨ty, ay⟩ := y
      have h1 : ¬ (500 ≤ ty - t) := by
        have := hc.1.2
        intro hge
        exact absurd this (not_lt.mpr hge)
      show (if 500 ≤ ty - t then [(t + 500, a)] else [])
          ++ debounceFires ((ty, ay) :: rest2) = _
      rw [if_neg h1, List.nil_append]
      exact ih last hl hc.2

/-- C1: when every gap between consecutive edits is below 500 ms and the
final search term is non-empty, exactly one HTTP request is issued, at
500 ms after the last edit, and its URL carries exactly the parameter
values of that last edit — no request carries an earlier intermediate
value. -/
theorem c1_single_request_final_params (edits : List (ℚ × Params))
    (last : ℚ × Params) (hl : edits.getLast? = some last)
    (hc : edits.Chain' (fun a b => a.1 < b.1 ∧ b.1 - a.1 < 500))
    (hterm : last.2.searchTerm ≠ "") :
    issuedRequests edits = [(last.1 + 500, buildSearchUrl last.2)] := by
  unfold issuedRequests
  rw [debounceFires_of_quick_edits edits last hl hc]
  simp [hterm]

/-- C1, witness: two edits 100 ms apart (typing a term) yield exactly
one request at 600 ms, with the final parameters. -/
theorem c1_single_request_final_params_witness :
    ([((0 : ℚ), defaultParams), (100, coffeeParams)].getLast?
        = some ((100 : ℚ), coffeeParams)) ∧
    List.Chain' (fun a b => a.1 < b.1 ∧ b.1 - a.1 < 500)
      [((0 : ℚ), defaultParams), (100, coffeeParams)] ∧
    coffeeParams.searchTerm ≠ "" ∧
    issuedRequests [((0 : ℚ), defaultParams), (100, coffeeParams)] =
      [((100 : ℚ) + 500, buildSearchUrl coffeeParams)] := by
  have hchain : List.Chain' (fun (a b : ℚ × Params) => a.1 < b.1 ∧ b.1 - a.1 < 500)
      [((0 : ℚ), defaultParams), (100, coffeeParams)] := by
    rw [List.chain'_cons]
    exact ⟨⟨by norm_num, by norm_num⟩, List.chain'_singleton _⟩
  exact ⟨rfl, hchain, by decide,
    c1_single_request_final_params [((0 : ℚ), defaultParams), (100, coffeeParams)]
      ((100 : ℚ), coffeeParams) rfl hchain (by decide)⟩

/-! ## Claim C8: the query string carries exactly the six parameters -/

theorem hexDigitChar_ne_amp (n : Nat) : hexDigitChar n ≠ '&' := by
  unfold hexDigitChar
  split <;> decide

theorem digitChar_ne_amp (n : Nat) : digitChar n ≠ '&' :=
  hexDigitChar_ne_amp _

theorem amp_notin_natToCharsAux (fuel : Nat) :
    ∀ n, '&' ∉ natToCharsAux fuel n := by
  induction fuel with
  | zero => intro n; simp [natToCharsAux]
  | succ k ih =>
    intro n
    by_cases h : n < 10
    · simp only [natToCharsAux, if_pos h, List.mem_singleton]
      exact fun hh => digitChar_ne_amp n hh.symm
    · simp only [natToCharsAux, if_neg h, List.mem_append, List.mem_singleton]
      rintro (h1 | h2)
      · exact ih _ h1
      · exact digitChar_ne_amp _ h2.symm

theorem amp_notin_natToChars (n : Nat) : '&' ∉ natToChars n :=
  amp_notin_natToCharsAux _ _

theorem amp_notin_fracChars (fuel : Nat) :
    ∀ r d, '&' ∉ fracChars fuel r d := by
  induction fuel with
  | zero => intro r d; simp [fracChars]
  | succ k ih =>
    intro r d
    by_cases h : r = 0
    · simp [fracChars, h]
    · simp only [fracChars, if_neg h, List.mem_cons]
      rintro (h1 | h2)
      · exact digitChar_ne_amp _ h1.symm
      · exact ih _ _ h2

theorem amp_notin_ratToChars (q : ℚ) : '&' ∉ ratToChars q := by
  unfold ratToChars
  intro h
  simp only [List.mem_append] at h
  rcases h with (h | h) | h
  · by_cases hq : q.num < 0
    · simp only [if_pos hq, List.mem_singleton] at h
      exact absurd h (by decide)
    · simp only [if_neg hq, List.not_mem_nil] at h
  · exact amp_notin_natToChars _ h
  · by_cases hz : q.num.natAbs % q.den = 0
    · simp only [if_pos hz, List.not_mem_nil] at h
    · simp only [if_neg hz, List.mem_cons] at h
      rcases h with h | h
      · exact absurd h (by decide)
      · exact amp_notin_fracChars _ _ _ h

theorem amp_notin_encode (s : List Char) : '&' ∉ encodeURIComponent s := by
  intro h
  unfold encodeURIComponent at h
  rw [List.mem_flatMap] at h
  obtain ⟨c, _, hc⟩ := h
  by_cases hu : isUnreservedURI c
  · rw [if_pos hu, List.mem_singleton] at hc
    rw [← hc] at hu
    exact absurd hu (by decide)
  · rw [if_neg hu, List.mem_flatMap] at hc
    obtain ⟨b, _, hb⟩ := hc
    simp only [pctEncodeByte, List.mem_cons, List.not_mem_nil, or_false] at hb
    rcases hb with hb | hb | hb
    · exact absurd hb (by decide)
    · exact hexDigitChar_ne_amp _ hb.symm
    · exact hexDigitChar_ne_amp _ hb.symm

theorem splitOnAmp_append (s : List Char) (t : List Char) (h : '&' ∉ s) :
    splitOnAmp (s ++ '&' :: t) = s :: splitOnAmp t := by
  induction s with
  | nil => simp [splitOnAmp]
  | cons c cs ih =>
    have hc : ¬ (c = '&') := fun hh => h (hh ▸ List.mem_cons_self c cs)
    have hcs : '&' ∉ cs := fun hh => h (List.mem_cons_of_mem _ hh)
    show splitOnAmp (c :: (cs ++ '&' :: t)) = _
    simp only [splitOnAmp, if_neg hc, ih hcs, List.headD_cons, List.tail_cons]

theorem splitOnAmp_no_amp (s : List Char) (h : '&' ∉ s) :
    splitOnAmp s = [s] := by
  induction s with
  | nil => rfl
  | cons c cs ih =>
    have hc : ¬ (c = '&') := fun hh => h (hh ▸ List.mem_cons_self c cs)
    have hcs : '&' ∉ cs := fun hh => h (List.mem_cons_of_mem _ hh)
    simp only [splitOnAmp, if_neg hc, ih hcs, List.headD_cons, List.tail_cons]

theorem splitParam_key_value (k v : List Char) (hk : '=' ∉ k) :
    splitParam (k ++ '=' :: v) = (k, v) := by
  induction k with
  | nil => simp [splitParam]
  | cons c cs ih =>
    have hc : ¬ (c = '=') := fun hh => hk (hh ▸ List.mem_cons_self c cs)
    have hcs : '=' ∉ cs := fun hh => hk (List.mem_cons_of_mem _ hh)
    show splitParam (c :: (cs ++ '=' :: v)) = _
    unfold splitParam
    rw [if_neg hc, ih hcs]

theorem queryString_decomp (p : Params) :
    queryString p =
      (("search").toList ++ '=' :: encodeURIComponent p.searchTerm.toList) ++ '&' ::
      ((("optimized").toList ++ '=' :: (if p.fast then "true" else "false").toList) ++ '&' ::
      ((("limit").toList ++ '=' :: natToChars p.limit) ++ '&' ::
      ((("threshold").toList ++ '=' :: ratToChars p.threshold) ++ '&' ::
      ((("speed").toList ++ '=' :: natToChars p.speed) ++ '&' ::
      (("dataset").toList ++ '=' :: p.dataset.toList))))) := by
  simp only [queryString, List.append_assoc, List.cons_append]
  rfl

/-- C8: the query string of every issued request carries exactly the six
parameters `search` (the URL-encoded search term), `optimized` (the
`true`/`false` serialization of `fast`), `limit`, `threshold`, `speed`
and `dataset`, with exactly the current parameter values, and no other
parameter.  The hypothesis reflects that both selectable datasets are
separator-free strings. -/
theorem c8_query_params_exact (p : Params) (hd : '&' ∉ p.dataset.toList) :
    parseQuery (queryString p) =
      [(("search").toList, encodeURIComponent p.searchTerm.toList),
       (("optimized").toList, (if p.fast then "true" else "false").toList),
       (("limit").toList, natToChars p.limit),
       (("threshold").toList, ratToChars p.threshold),
       (("speed").toList, natToChars p.speed),
       (("dataset").toList, p.dataset.toList)] := by
  have hbool : '&' ∉ (if p.fast then "true" else "false").toList := by
    cases p.fast <;> decide
  have h1 : '&' ∉ ("search").toList ++ '=' :: encodeURIComponent p.searchTerm.toList := by
    intro h
    rcases List.mem_append.mp h with h | h
    · exact absurd h (by decide)
    · rcases List.mem_cons.mp h with h | h
      · exact absurd h (by decide)
      · exact amp_notin_encode _ h
  have h2 : '&' ∉ ("optimized").toList ++ '=' :: (if p.fast then "true" else "false").toList := by
    intro h
    rcases List.mem_append.mp h with h | h
    · exact absurd h (by decide)
    · rcases List.mem_cons.mp h with h | h
      · exact absurd h (by decide)
      · exact hbool h
  have h3 : '&' ∉ ("limit").toList ++ '=' :: natToChars p.limit := by
    intro h
    rcases List.mem_append.mp h with h | h
    · exact absurd h (by decide)
    · rcases List.mem_cons.mp h with h | h
      · exact absurd h (by decide)
      · exact amp_notin_natToChars _ h
  have h4 : '&' ∉ ("threshold").toList ++ '=' :: ratToChars p.threshold := by
    intro h
    rcases List.mem_append.mp h with h | h
    · exact absurd h (by decide)
    · rcases List.mem_cons.mp h with h | h
      · exact absurd h (by decide)
      · exact amp_notin_ratToChars _ h
  have h5 : '&' ∉ ("speed").toList ++ '=' :: natToChars p.speed := by
    intro h
    rcases List.mem_append.mp h with h | h
    · exact absurd h (by decide)
    · rcases List.mem_cons.mp h with h | h
      · exact absurd h (by decide)
      · exact amp_notin_natToChars _ h
  have h6 : '&' ∉ ("dataset").toList ++ '=' :: p.dataset.toList := by
    intro h
    rcases List.mem_append.mp h with h | h
    · exact absurd h (by decide)
    · rcases List.mem_cons.mp h with h | h
      · exact absurd h (by decide)
      · exact hd h
  unfold parseQuery
  rw [queryString_decomp p, splitOnAmp_append _ _ h1, splitOnAmp_append _ _ h2,
      splitOnAmp_append _ _ h3, splitOnAmp_append _ _ h4, splitOnAmp_append _ _ h5,
      splitOnAmp_no_amp _ h6]
  simp only [List.map]
  rw [splitParam_key_value _ _ (by decide), splitParam_key_value _ _ (by decide),
      splitParam_key_value _ _ (by decide), splitParam_key_value _ _ (by decide),
      splitParam_key_value _ _ (by decide), splitParam_key_value _ _ (by decide)]

/-- C8, witness: the default parameters with search term `coffee`
produce exactly the six expected key/value pairs. -/
theorem c8_query_params_exact_witness :
    '&' ∉ coffeeParams.dataset.toList ∧
    parseQuery (queryString coffeeParams) =
      [(("search").toList, ("coffee").toList),
       (("optimized").toList, ("false").toList),
       (("limit").toList, ("10").toList),
       (("threshold").toList, ("0.5").toList),
       (("speed").toList, ("0").toList),
       (("dataset").toList, ("reviews").toList)] := by
  refine ⟨by decide, ?_⟩
  rw [c8_query_params_exact coffeeParams (by decide)]
  rfl

end SearchDemo
